import Mathlib

/-!
Verification of the DBI_watcher release-to-config pipeline (src/main.py).

The Python program is embedded shallowly:
* Python strings are Lean `String`s; `str.lower`/`str.casefold` are modelled
  character-wise with the ASCII case mapping (they agree with Python on every
  character occurring in the filenames, maps and templates considered here);
* `name.split(".")` is modelled by `pySplit`, `str.rstrip` by `pyRstrip`,
  `str.startswith`/`str.endswith` by `pyStartsWith`/`pyEndsWith`;
* Python's stable `list.sort` is modelled by `List.insertionSort` (stable,
  and for the relations used here all ties are between identical elements,
  so the result is the unique sorted permutation);
* exceptions are `Except`: `parse_assets` returns `Except String _`, the
  network layer returns `Except PyExn _`; an exception that `main` does not
  catch appears as an `Except.error` result of `main` itself;
* filesystem and console side effects of `main` are recorded as an explicit
  `Effect` trace.
-/

namespace DBIWatcher

/-- An asset object of a release payload; `asset.get("name", "")` is the
stored string (a missing field is the empty string). -/
structure Asset where
  name : String
deriving DecidableEq

deriving instance DecidableEq for Except

/-- Character-wise ASCII lowercase mapping, modelling Python `str.lower`
on the characters relevant here. -/
def pyLower (s : String) : String :=
  ⟨s.data.map Char.toLower⟩

/-- Character-wise case folding, modelling Python `str.casefold` on the
characters relevant here (ASCII letters fold to lowercase, everything else
occurring in this development folds to itself). -/
def pyCasefold (s : String) : String :=
  ⟨s.data.map Char.toLower⟩

/-- Split a character list at every occurrence of `c`, Python
`str.split(sep)` semantics (`"".split(".") == [""]`, `".".split(".") == ["", ""]`). -/
def splitOnChar (c : Char) : List Char → List (List Char)
  | [] => [[]]
  | x :: xs =>
    match splitOnChar c xs with
    | [] => [[]]
    | y :: ys => if x = c then [] :: y :: ys else (x :: y) :: ys

/-- Python `s.split(str(c))`. -/
def pySplit (s : String) (c : Char) : List String :=
  (splitOnChar c s.data).map (fun l => ⟨l⟩)

/-- Python `s.startswith(p)`. -/
def pyStartsWith (s p : String) : Bool :=
  p.data.isPrefixOf s.data

/-- Python `s.endswith(p)`. -/
def pyEndsWith (s p : String) : Bool :=
  p.data.reverse.isPrefixOf s.data.reverse

/-- The whitespace characters stripped by Python `str.rstrip()` (the ASCII
ones; no other whitespace occurs in the strings handled here). -/
def isPySpace (c : Char) : Bool :=
  c = ' ' || c = '\t' || c = '\n' || c = '\r' || c = '\x0b' || c = '\x0c'

/-- Python `s.rstrip()`. -/
def pyRstrip (s : String) : String :=
  ⟨(s.data.reverse.dropWhile isPySpace).reverse⟩

/-- `FILE_HEADER` from src/main.py. -/
def FILE_HEADER : String := ";LANGUAGES\n\n"

/-- `ENTRY_TEMPLATE.format(lang_long=.., version=.., lang_short=..)` from
src/main.py. -/
def ENTRY_TEMPLATE (lang_long version lang_short : String) : String :=
  "[" ++ lang_long ++ "]\n" ++
  "catch_errors\n" ++
  "download https://github.com/rashevskyv/DBIPatcher/releases/latest/download/DBI." ++
    version ++ "." ++ lang_short ++ ".nro /switch/DBI/DBI_new.nro\n" ++
  "mv /switch/DBI/DBI_new.nro /switch/DBI/DBI.nro\n"

/-- The `ValueError` message raised on an asset version mismatch. -/
def inconsistentMsg (expected got name : String) : String :=
  "Inconsistent versions in assets: expected " ++ expected ++ ", got " ++ got ++
    " from " ++ name

/-- The `ValueError` message raised when no qualifying asset is found. -/
def noAssetsMsg : String := "No DBI assets found in the latest release"

/-- The prefix/suffix filter of `parse_assets`:
`lower_name.startswith("dbi.") and lower_name.endswith(".nro")`. -/
def hasDbiShape (name : String) : Bool :=
  pyStartsWith (pyLower name) "dbi." && pyEndsWith (pyLower name) ".nro"

/-- `name.split(".")` as used in `parse_assets`. -/
def assetParts (name : String) : List String :=
  pySplit name '.'

/-- `parts[1]` of a qualifying asset name (its version segment). -/
def assetVersion (name : String) : String :=
  (assetParts name).getD 1 ""

/-- `parts[2]` of a qualifying asset name (its language-code segment). -/
def assetLang (name : String) : String :=
  (assetParts name).getD 2 ""

/-- A name passes every filter of the `parse_assets` loop body. -/
def qualifies (name : String) : Bool :=
  hasDbiShape name && (assetParts name).length == 4

/-- The `for asset in assets` loop of `parse_assets`, with the running
`version`/`languages` state made explicit. -/
def parseAssetsLoop :
    List Asset → Option String → List String →
      Except String (Option String × List String)
  | [], version, languages => .ok (version, languages)
  | asset :: rest, version, languages =>
    if hasDbiShape asset.name = false then
      parseAssetsLoop rest version languages
    else if (assetParts asset.name).length ≠ 4 then
      parseAssetsLoop rest version languages
    else
      match version with
      | none =>
          parseAssetsLoop rest (some (assetVersion asset.name))
            (languages ++ [assetLang asset.name])
      | some v =>
          if v ≠ assetVersion asset.name then
            .error (inconsistentMsg v (assetVersion asset.name) asset.name)
          else
            parseAssetsLoop rest (some v) (languages ++ [assetLang asset.name])

/-- Strict lexicographic comparison of character lists by code point,
Python `str.__lt__` semantics. -/
def strLtB : List Char → List Char → Bool
  | [], [] => false
  | [], _ :: _ => true
  | _ :: _, [] => false
  | a :: as, b :: bs => if a < b then true else if b < a then false else strLtB as bs

/-- Python `a < b` on strings (lexicographic by code point). -/
def pyStrLt (a b : String) : Bool := strLtB a.data b.data

/-- Python `a <= b` on strings: the reflexive closure of `pyStrLt`, the order
used by `list.sort()` on the language codes. -/
def strLE (a b : String) : Prop := pyStrLt b a = false

instance : DecidableRel strLE := fun a b => inferInstanceAs (Decidable (pyStrLt b a = false))

/-- Python `languages.sort()` (stable; on strings the sorted permutation is
unique). -/
def pySortStrings (l : List String) : List String :=
  l.insertionSort strLE

/-- `parse_assets` from src/main.py. -/
def parse_assets (assets : List Asset) : Except String (String × List String) :=
  match parseAssetsLoop assets none [] with
  | .error e => .error e
  | .ok (version, languages) =>
    match version with
    | none => .error noAssetsMsg
    | some v =>
      if languages = [] then .error noAssetsMsg
      else .ok (v, pySortStrings languages)

/-- Python `lang_map.get(key, dflt)`; the map is the association list of the
loaded JSON object (keys unique). -/
def dictGet (m : List (String × String)) (key dflt : String) : String :=
  match m.find? (fun p => p.1 == key) with
  | some p => p.2
  | none => dflt

/-- The sort key `(item[0], item[1])` order of `rendered.sort`: Python tuple
`<=` on (case-folded display name, language code), lexicographic. -/
def keyLE (a b : String × String) : Prop :=
  pyStrLt a.1 b.1 = true ∨ (a.1 = b.1 ∧ pyStrLt b.2 a.2 = false)

instance : DecidableRel keyLE :=
  fun a b =>
    inferInstanceAs (Decidable (pyStrLt a.1 b.1 = true ∨ (a.1 = b.1 ∧ pyStrLt b.2 a.2 = false)))

/-- The order on the `(long_name.casefold(), lang_code, block)` triples used
by `rendered.sort(key=lambda item: (item[0], item[1]))`. -/
def tripleLE (a b : String × String × String) : Prop :=
  keyLE (a.1, a.2.1) (b.1, b.2.1)

instance : DecidableRel tripleLE :=
  fun a b => inferInstanceAs (Decidable (keyLE (a.1, a.2.1) (b.1, b.2.1)))

/-- One iteration of the `for lang_code in languages` loop of
`render_config_ini`: the appended `(long_name.casefold(), lang_code, block)`
triple. -/
def renderTriple (version : String) (lang_map : List (String × String))
    (lang_code : String) : String × String × String :=
  let long_name := dictGet lang_map lang_code lang_code
  (pyCasefold long_name, lang_code, pyRstrip (ENTRY_TEMPLATE long_name version lang_code))

/-- The `rendered` list of `render_config_ini` just before sorting. -/
def renderedTriples (version : String) (lang_map : List (String × String))
    (languages : List String) : List (String × String × String) :=
  languages.map (renderTriple version lang_map)

/-- The `rendered` list of `render_config_ini` after
`rendered.sort(key=lambda item: (item[0], item[1]))` (Python's sort is
stable; triples with equal keys are identical here, so the stable sort's
output is the unique sorted permutation computed by `insertionSort`). -/
def sortedTriples (version : String) (lang_map : List (String × String))
    (languages : List String) : List (String × String × String) :=
  (renderedTriples version lang_map languages).insertionSort tripleLE

/-- Python `sep.join(blocks)`. -/
def joinSep (sep : String) : List String → String
  | [] => ""
  | [b] => b
  | b :: rest => b ++ sep ++ joinSep sep rest

/-- `render_config_ini` from src/main.py: returns the `config.ini` text and
the emitted language-code order. -/
def render_config_ini (version : String) (languages : List String)
    (lang_map : List (String × String)) : String × List String :=
  let sortedR := sortedTriples version lang_map languages
  let blocks := pyRstrip FILE_HEADER :: sortedR.map (fun t => t.2.2)
  let ordered_codes := sortedR.map (fun t => t.2.1)
  let content := joinSep "\n\n" blocks
  if pyEndsWith content "\n" = false then (content ++ "\n", ordered_codes)
  else (content, ordered_codes)

/-- The JSON object written by `update_state` via `save_json`. -/
structure StatePayload where
  last_release_id : Int
  last_tag : String
  last_version : String
  languages : List String
  updated_at : String
deriving DecidableEq

/-- `update_state` from src/main.py: the payload it persists, with the
current UTC ISO timestamp passed in explicitly. -/
def update_state (release_id : Int) (tag_name : String) (version : String)
    (languages : List String) (now_iso : String) : StatePayload :=
  { last_release_id := release_id
    last_tag := tag_name
    last_version := version
    languages := languages
    updated_at := now_iso }

/-- The release JSON payload: `release.get("id")`, `release.get("tag_name", ...)`
and `release.get("assets", [])` (a missing assets field is the empty list). -/
structure ReleaseJson where
  id : Option Int
  tag_name : Option String
  assets : List Asset
deriving DecidableEq

/-- What the network does on `requests.get(GITHUB_RELEASES_API, timeout=30)`:
either an HTTP response with a status code and a JSON body, or a raised
`requests.Timeout` / `requests.ConnectionError`. -/
inductive HttpOutcome where
  | response (status : Nat) (body : ReleaseJson)
  | timeout
  | connectionFailure
deriving DecidableEq

/-- The `requests` exceptions relevant to `fetch_latest_release`.
`requests.Timeout` and `requests.ConnectionError` are NOT subclasses of
`requests.HTTPError`; only `raise_for_status` raises `HTTPError`. -/
inductive PyExn where
  | httpError
  | timeoutError
  | connectionError
deriving DecidableEq

/-- `response.raise_for_status()` raises iff the status code is 4xx/5xx. -/
def failStatus (status : Nat) : Bool :=
  400 ≤ status && status < 600

/-- `fetch_latest_release` from src/main.py, as a function of the network's
behaviour: returns the parsed body or raises. -/
def fetch_latest_release (net : HttpOutcome) : Except PyExn ReleaseJson :=
  match net with
  | .response status body =>
      if failStatus status = true then .error .httpError else .ok body
  | .timeout => .error .timeoutError
  | .connectionFailure => .error .connectionError

/-- The observable console and filesystem actions of `main`, in program
order. File paths are abstracted (CLI handling is out of scope): there is
one output directory, one config file and one state file. -/
inductive Effect where
  | stderrLine (s : String)
  | stdoutLine (s : String)
  | mkdirOutputDir
  | clearOutputDir
  | writeConfigFile (content : String)
  | writeStateFile (payload : StatePayload)
deriving DecidableEq

/-- Whether an effect writes to the filesystem (directory creation/clearing,
config write, state write). -/
def Effect.isFsWrite : Effect → Bool
  | .stderrLine _ => false
  | .stdoutLine _ => false
  | .mkdirOutputDir => true
  | .clearOutputDir => true
  | .writeConfigFile _ => true
  | .writeStateFile _ => true

/-- The state loaded by `load_json(args.state_file)`:
`state.get("last_release_id")` (absent file or key gives `none`). -/
structure LoadedState where
  last_release_id : Option Int
deriving DecidableEq

/-- `print(..., file=sys.stderr)` message for a missing language map (the
path interpolation is abstracted). -/
def langMapMissingMsg : String :=
  "Language mapping file is empty or missing: <languages>"

/-- `print(..., file=sys.stderr)` message for a caught `requests.HTTPError`
(the error text interpolation is abstracted). -/
def fetchFailedMsg : String :=
  "Failed to query GitHub releases: <err>"

/-- `print(..., file=sys.stderr)` message for a payload without an id. -/
def noIdMsg : String :=
  "Latest release payload does not contain an id"

/-- `print(...)` message of the already-processed early exit. -/
def alreadyProcessedMsg : String :=
  "Latest release was already processed. Use --force to rebuild."

/-- `main` from src/main.py, over the loaded language map, the loaded state,
the network behaviour, the `--force` flag and the current timestamp.
The result is the returned exit code — or, as `Except.error`, an exception
that propagates out of `main` uncaught — together with the trace of
console/filesystem effects.  Note the source catches only
`requests.HTTPError` around `fetch_latest_release`. -/
def main (lang_map : List (String × String)) (state : LoadedState)
    (net : HttpOutcome) (force : Bool) (now_iso : String) :
    Except PyExn Int × List Effect :=
  if lang_map = [] then
    (.ok 1, [.stderrLine langMapMissingMsg])
  else
    match fetch_latest_release net with
    | .error .httpError => (.ok 1, [.stderrLine fetchFailedMsg])
    | .error e => (.error e, [])
    | .ok release =>
      match release.id with
      | none => (.ok 1, [.stderrLine noIdMsg])
      | some release_id =>
        if state.last_release_id = some release_id ∧ force = false then
          (.ok 0, [.stdoutLine alreadyProcessedMsg])
        else
          match parse_assets release.assets with
          | .error msg => (.ok 1, [.stderrLine msg])
          | .ok (version, languages) =>
            let rendered := render_config_ini version languages lang_map
            let release_tag := release.tag_name.getD ("dbi-" ++ version)
            let payload := update_state release_id release_tag version rendered.2 now_iso
            (.ok 0,
              [.mkdirOutputDir, .clearOutputDir, .writeConfigFile rendered.1,
               .writeStateFile payload,
               .stdoutLine ("Prepared package for release " ++ release_tag ++
                 " with version " ++ version ++ "."),
               .stdoutLine ("Languages: " ++ joinSep ", " rendered.2),
               .stdoutLine "config.ini: <output_dir>/config.ini"])

/-- The language codes of the assets that pass every filter of the
`parse_assets` loop, in asset order. -/
def qualifyingCodes (assets : List Asset) : List String :=
  (assets.filter (fun a => qualifies a.name)).map (fun a => assetLang a.name)

/-! ### Stepping lemmas for the `parse_assets` loop -/

lemma parseAssetsLoop_cons_skip (a : Asset) (rest : List Asset)
    (ver : Option String) (acc : List String) (h : qualifies a.name = false) :
    parseAssetsLoop (a :: rest) ver acc = parseAssetsLoop rest ver acc := by
  have h' := h
  unfold qualifies at h'
  by_cases hs : hasDbiShape a.name = false
  · simp [parseAssetsLoop, hs]
  · have hs' : hasDbiShape a.name = true := by
      revert hs; cases hasDbiShape a.name <;> simp
    have hl : (assetParts a.name).length ≠ 4 := by
      intro hc
      rw [hs', hc] at h'
      simp at h'
    simp [parseAssetsLoop, hs', hl]

lemma qualifies_parts (a : Asset) (h : qualifies a.name = true) :
    hasDbiShape a.name = true ∧ (assetParts a.name).length = 4 := by
  unfold qualifies at h
  rw [Bool.and_eq_true] at h
  exact ⟨h.1, by simpa using h.2⟩

lemma parseAssetsLoop_cons_qual_none (a : Asset) (rest : List Asset)
    (acc : List String) (h : qualifies a.name = true) :
    parseAssetsLoop (a :: rest) none acc
      = parseAssetsLoop rest (some (assetVersion a.name)) (acc ++ [assetLang a.name]) := by
  obtain ⟨hs, hl⟩ := qualifies_parts a h
  simp [parseAssetsLoop, hs, hl]

lemma parseAssetsLoop_cons_qual_some_eq (a : Asset) (rest : List Asset)
    (v : String) (acc : List String) (h : qualifies a.name = true)
    (hv : v = assetVersion a.name) :
    parseAssetsLoop (a :: rest) (some v) acc
      = parseAssetsLoop rest (some v) (acc ++ [assetLang a.name]) := by
  obtain ⟨hs, hl⟩ := qualifies_parts a h
  simp [parseAssetsLoop, hs, hl, hv]

lemma parseAssetsLoop_cons_qual_some_ne (a : Asset) (rest : List Asset)
    (v : String) (acc : List String) (h : qualifies a.name = true)
    (hv : v ≠ assetVersion a.name) :
    parseAssetsLoop (a :: rest) (some v) acc
      = .error (inconsistentMsg v (assetVersion a.name) a.name) := by
  obtain ⟨hs, hl⟩ := qualifies_parts a h
  simp [parseAssetsLoop, hs, hl, hv]

lemma parseAssetsLoop_no_qual (assets : List Asset) (ver : Option String)
    (acc : List String) (h : ∀ a ∈ assets, qualifies a.name = false) :
    parseAssetsLoop assets ver acc = .ok (ver, acc) := by
  induction assets with
  | nil => rfl
  | cons x rest ih =>
    rw [parseAssetsLoop_cons_skip x rest ver acc (h x (List.mem_cons_self ..))]
    exact ih (fun a ha => h a (List.mem_cons_of_mem _ ha))

lemma qualifyingCodes_cons_skip (a : Asset) (rest : List Asset)
    (h : qualifies a.name = false) :
    qualifyingCodes (a :: rest) = qualifyingCodes rest := by
  simp [qualifyingCodes, List.filter_cons, h]

lemma qualifyingCodes_cons_qual (a : Asset) (rest : List Asset)
    (h : qualifies a.name = true) :
    qualifyingCodes (a :: rest) = assetLang a.name :: qualifyingCodes rest := by
  simp [qualifyingCodes, List.filter_cons, h]

/-- Whenever the loop finishes without an error, the collected language list
is the initial accumulator followed by the codes of all qualifying assets. -/
lemma parseAssetsLoop_ok_langs (assets : List Asset) :
    ∀ (ver : Option String) (acc : List String) (ver' : Option String)
      (langs : List String),
      parseAssetsLoop assets ver acc = .ok (ver', langs) →
      langs = acc ++ qualifyingCodes assets := by
  induction assets with
  | nil =>
    intro ver acc ver' langs h
    simp only [parseAssetsLoop] at h
    cases h
    simp [qualifyingCodes]
  | cons x rest ih =>
    intro ver acc ver' langs h
    by_cases hq : qualifies x.name = true
    · rw [qualifyingCodes_cons_qual x rest hq]
      cases ver with
      | none =>
        rw [parseAssetsLoop_cons_qual_none x rest acc hq] at h
        have := ih _ _ _ _ h
        simpa using this
      | some v =>
        by_cases hv : v = assetVersion x.name
        · rw [parseAssetsLoop_cons_qual_some_eq x rest v acc hq hv] at h
          have := ih _ _ _ _ h
          simpa using this
        · rw [parseAssetsLoop_cons_qual_some_ne x rest v acc hq hv] at h
          cases h
    · have hq' : qualifies x.name = false := by
        revert hq; cases qualifies x.name <;> simp
      rw [parseAssetsLoop_cons_skip x rest ver acc hq'] at h
      rw [qualifyingCodes_cons_skip x rest hq']
      exact ih _ _ _ _ h

/-! ### Order facts about the code-point comparison `strLtB` -/

lemma strLtB_cons_iff (x y : Char) (as bs : List Char) :
    strLtB (x :: as) (y :: bs) = true ↔ x < y ∨ (x = y ∧ strLtB as bs = true) := by
  simp only [strLtB]
  by_cases h1 : x < y
  · simp [h1]
  · by_cases h2 : y < x
    · simp [h1, h2]
      intro he
      exact absurd (he ▸ h2) (lt_irrefl x)
    · have hxy : x = y := le_antisymm (not_lt.mp h2) (not_lt.mp h1)
      simp [h1, h2, hxy]

lemma strLtB_irrefl (l : List Char) : strLtB l l = false := by
  induction l with
  | nil => rfl
  | cons x xs ih => simp [strLtB, lt_irrefl, ih]

lemma strLtB_nil_right : ∀ l : List Char, strLtB l [] = false
  | [] => rfl
  | _ :: _ => rfl

lemma bool_cases (b : Bool) : b = false ∨ b = true := by
  cases b
  · exact Or.inl rfl
  · exact Or.inr rfl

lemma strLtB_asymm : ∀ {a b : List Char}, strLtB a b = true → strLtB b a = false
  | [], [], h => by simp [strLtB] at h
  | [], _ :: _, _ => rfl
  | _ :: _, [], h => by simp [strLtB] at h
  | x :: as, y :: bs, h => by
    rw [strLtB_cons_iff] at h
    rcases h with h | ⟨he, hr⟩
    · have h2 : ¬ y < x := lt_asymm h
      have h3 : y ≠ x := fun hc => absurd (hc ▸ h) (lt_irrefl y)
      rcases bool_cases (strLtB (y :: bs) (x :: as)) with hf | ht
      · exact hf
      · rw [strLtB_cons_iff] at ht
        rcases ht with ht | ⟨ht, _⟩
        · exact absurd ht h2
        · exact absurd ht h3
    · subst he
      rcases bool_cases (strLtB (x :: bs) (x :: as)) with hf | ht
      · exact hf
      · rw [strLtB_cons_iff] at ht
        rcases ht with ht | ⟨_, ht⟩
        · exact absurd ht (lt_irrefl x)
        · rw [strLtB_asymm hr] at ht
          cases ht

lemma strLtB_conn : ∀ {a b : List Char},
    strLtB a b = false → strLtB b a = false → a = b
  | [], [], _, _ => rfl
  | [], _ :: _, h, _ => by simp [strLtB] at h
  | _ :: _, [], _, h => by simp [strLtB] at h
  | x :: as, y :: bs, h1, h2 => by
    have hxy : ¬ x < y := fun hc => by
      rw [(strLtB_cons_iff x y as bs).mpr (Or.inl hc)] at h1; cases h1
    have hyx : ¬ y < x := fun hc => by
      rw [(strLtB_cons_iff y x bs as).mpr (Or.inl hc)] at h2; cases h2
    have he : x = y := le_antisymm (not_lt.mp hyx) (not_lt.mp hxy)
    subst he
    have h1' : strLtB as bs = false := by
      rcases bool_cases (strLtB as bs) with hf | ht
      · exact hf
      · rw [(strLtB_cons_iff x x as bs).mpr (Or.inr ⟨rfl, ht⟩)] at h1; cases h1
    have h2' : strLtB bs as = false := by
      rcases bool_cases (strLtB bs as) with hf | ht
      · exact hf
      · rw [(strLtB_cons_iff x x bs as).mpr (Or.inr ⟨rfl, ht⟩)] at h2; cases h2
    rw [strLtB_conn h1' h2']

lemma strLtB_trans : ∀ {a b c : List Char},
    strLtB a b = true → strLtB b c = true → strLtB a c = true
  | [], b, [], _, h2 => by
    rw [strLtB_nil_right b] at h2
    cases h2
  | [], [], _ :: _, h1, _ => by simp [strLtB] at h1
  | [], _ :: _, _ :: _, _, _ => rfl
  | _ :: _, [], _, h1, _ => by simp [strLtB] at h1
  | _ :: _, _ :: _, [], _, h2 => by simp [strLtB] at h2
  | x :: as, y :: bs, z :: cs, h1, h2 => by
    rw [strLtB_cons_iff] at h1 h2 ⊢
    rcases h1 with h1 | ⟨he1, hr1⟩
    · rcases h2 with h2 | ⟨he2, _⟩
      · exact Or.inl (lt_trans h1 h2)
      · exact Or.inl (he2 ▸ h1)
    · rcases h2 with h2 | ⟨he2, hr2⟩
      · exact Or.inl (he1 ▸ h2)
      · exact Or.inr ⟨he1.trans he2, strLtB_trans hr1 hr2⟩

lemma string_eq_of_data_eq {a b : String} (h : a.data = b.data) : a = b := by
  cases a
  cases b
  exact congrArg String.mk h

lemma strLE_total (a b : String) : strLE a b ∨ strLE b a := by
  unfold strLE pyStrLt
  rcases bool_cases (strLtB b.data a.data) with hf | ht
  · exact Or.inl hf
  · exact Or.inr (strLtB_asymm ht)

lemma strLE_trans {a b c : String} (h1 : strLE a b) (h2 : strLE b c) : strLE a c := by
  unfold strLE pyStrLt at h1 h2 ⊢
  rcases bool_cases (strLtB c.data a.data) with hf | ht
  · exact hf
  · rcases bool_cases (strLtB a.data b.data) with hab | hab
    · have := strLtB_conn hab h1
      rw [this] at ht
      rw [ht] at h2
      cases h2
    · have := strLtB_trans ht hab
      rw [this] at h2
      cases h2

lemma strLE_antisymm {a b : String} (h1 : strLE a b) (h2 : strLE b a) : a = b :=
  string_eq_of_data_eq (strLtB_conn h2 h1)

instance : IsTotal String strLE := ⟨strLE_total⟩

instance : IsTrans String strLE := ⟨fun _ _ _ => strLE_trans⟩

/-! ### The inconsistent-version error path of `parse_assets` -/

/-- The first asset of the list that passes every filter: the one that
establishes the version baseline. -/
def firstQualifying (assets : List Asset) : Option Asset :=
  assets.find? (fun a => qualifies a.name)

/-- Once a baseline `v` is set, the loop fails on the first later qualifying
asset whose version differs from `v`, with the message naming `v`, the
differing version and the offending filename. -/
lemma parseAssetsLoop_some_inconsistent (assets : List Asset) :
    ∀ (v : String) (acc : List String),
      (∃ b ∈ assets, qualifies b.name = true ∧ assetVersion b.name ≠ v) →
      ∃ w nm, parseAssetsLoop assets (some v) acc
          = .error (inconsistentMsg v w nm) ∧ w ≠ v ∧
        ∃ c ∈ assets, qualifies c.name = true ∧ assetVersion c.name = w ∧ c.name = nm := by
  induction assets with
  | nil =>
    intro v acc h
    obtain ⟨b, hb, _⟩ := h
    cases hb
  | cons x rest ih =>
    intro v acc h
    by_cases hq : qualifies x.name = true
    · by_cases hv : v = assetVersion x.name
      · obtain ⟨b, hb, hbq, hbv⟩ := h
        have hbx : b ≠ x := by
          intro he
          exact hbv (by rw [he, ← hv])
        have hbrest : b ∈ rest := by
          rcases List.mem_cons.mp hb with he | hm
          · exact absurd he hbx
          · exact hm
        obtain ⟨w, nm, heq, hwv, c, hc, hcq, hcv, hcn⟩ :=
          ih v (acc ++ [assetLang x.name]) ⟨b, hbrest, hbq, hbv⟩
        refine ⟨w, nm, ?_, hwv, c, List.mem_cons_of_mem x hc, hcq, hcv, hcn⟩
        rw [parseAssetsLoop_cons_qual_some_eq x rest v acc hq hv]
        exact heq
      · refine ⟨assetVersion x.name, x.name, ?_, fun hc => hv hc.symm,
          x, List.mem_cons_self .., hq, rfl, rfl⟩
        exact parseAssetsLoop_cons_qual_some_ne x rest v acc hq hv
    · have hq' : qualifies x.name = false := by
        revert hq; cases qualifies x.name <;> simp
      obtain ⟨b, hb, hbq, hbv⟩ := h
      have hbrest : b ∈ rest := by
        rcases List.mem_cons.mp hb with he | hm
        · rw [he] at hbq
          rw [hbq] at hq'
          cases hq'
        · exact hm
      obtain ⟨w, nm, heq, hwv, c, hc, hcq, hcv, hcn⟩ :=
        ih v acc ⟨b, hbrest, hbq, hbv⟩
      refine ⟨w, nm, ?_, hwv, c, List.mem_cons_of_mem x hc, hcq, hcv, hcn⟩
      rw [parseAssetsLoop_cons_skip x rest (some v) acc hq']
      exact heq

/-- Starting with no baseline, two qualifying assets with different versions
make the loop fail; the reported baseline is the version of the first
qualifying asset. -/
lemma parseAssetsLoop_none_inconsistent (assets : List Asset) :
    ∀ (acc : List String) (a0 : Asset),
      firstQualifying assets = some a0 →
      (∃ a ∈ assets, ∃ b ∈ assets, qualifies a.name = true ∧ qualifies b.name = true ∧
        assetVersion a.name ≠ assetVersion b.name) →
      ∃ w nm, parseAssetsLoop assets none acc
          = .error (inconsistentMsg (assetVersion a0.name) w nm) ∧
        w ≠ assetVersion a0.name ∧
        ∃ c ∈ assets, qualifies c.name = true ∧ assetVersion c.name = w ∧ c.name = nm := by
  induction assets with
  | nil =>
    intro acc a0 h0 h
    cases h0
  | cons x rest ih =>
    intro acc a0 h0 h
    by_cases hq : qualifies x.name = true
    · have ha0 : a0 = x := by
        unfold firstQualifying at h0
        simp only [List.find?, hq] at h0
        exact (Option.some.inj h0).symm
      subst ha0
      obtain ⟨a, ha, b, hb, haq, hbq, hab⟩ := h
      have key : ∃ d ∈ rest, qualifies d.name = true ∧
          assetVersion d.name ≠ assetVersion a0.name := by
        by_cases hax : assetVersion a.name = assetVersion a0.name
        · have hbv : assetVersion b.name ≠ assetVersion a0.name := by
            rw [← hax]
            exact fun hc => hab hc.symm
          have hbx : b ∈ rest := by
            rcases List.mem_cons.mp hb with he | hm
            · exact absurd (by rw [he]) hbv
            · exact hm
          exact ⟨b, hbx, hbq, hbv⟩
        · have hax' : a ∈ rest := by
            rcases List.mem_cons.mp ha with he | hm
            · exact absurd (by rw [he]) hax
            · exact hm
          exact ⟨a, hax', haq, hax⟩
      obtain ⟨w, nm, heq, hwv, c, hc, hcq, hcv, hcn⟩ :=
        parseAssetsLoop_some_inconsistent rest (assetVersion a0.name)
          (acc ++ [assetLang a0.name]) key
      refine ⟨w, nm, ?_, hwv, c, List.mem_cons_of_mem a0 hc, hcq, hcv, hcn⟩
      rw [parseAssetsLoop_cons_qual_none a0 rest acc hq]
      exact heq
    · have hq' : qualifies x.name = false := by
        revert hq; cases qualifies x.name <;> simp
      have h0' : firstQualifying rest = some a0 := by
        unfold firstQualifying at h0 ⊢
        simpa only [List.find?, hq'] using h0
      obtain ⟨a, ha, b, hb, haq, hbq, hab⟩ := h
      have harest : a ∈ rest := by
        rcases List.mem_cons.mp ha with he | hm
        · rw [he] at haq
          rw [haq] at hq'
          cases hq'
        · exact hm
      have hbrest : b ∈ rest := by
        rcases List.mem_cons.mp hb with he | hm
        · rw [he] at hbq
          rw [hbq] at hq'
          cases hq'
        · exact hm
      obtain ⟨w, nm, heq, hwv, c, hc, hcq, hcv, hcn⟩ :=
        ih acc a0 h0' ⟨a, harest, b, hbrest, haq, hbq, hab⟩
      refine ⟨w, nm, ?_, hwv, c, List.mem_cons_of_mem x hc, hcq, hcv, hcn⟩
      rw [parseAssetsLoop_cons_skip x rest none acc hq']
      exact heq

/-! ### Order facts about the render sort key -/

lemma pyStrLt_trans {a b c : String} (h1 : pyStrLt a b = true) (h2 : pyStrLt b c = true) :
    pyStrLt a c = true :=
  strLtB_trans h1 h2

lemma pyStrLt_conn {a b : String} (h1 : pyStrLt a b = false) (h2 : pyStrLt b a = false) :
    a = b :=
  string_eq_of_data_eq (strLtB_conn h1 h2)

lemma pyStrLt_irrefl (a : String) : pyStrLt a a = false :=
  strLtB_irrefl a.data

lemma pyStrLt_asymm {a b : String} (h : pyStrLt a b = true) : pyStrLt b a = false :=
  strLtB_asymm h

lemma keyLE_total (a b : String × String) : keyLE a b ∨ keyLE b a := by
  unfold keyLE
  rcases bool_cases (pyStrLt a.1 b.1) with hab | hab
  · rcases bool_cases (pyStrLt b.1 a.1) with hba | hba
    · have he : b.1 = a.1 := pyStrLt_conn hba hab
      rcases strLE_total a.2 b.2 with h2 | h2
      · exact Or.inl (Or.inr ⟨he.symm, h2⟩)
      · exact Or.inr (Or.inr ⟨he, h2⟩)
    · exact Or.inr (Or.inl hba)
  · exact Or.inl (Or.inl hab)

lemma keyLE_trans {a b c : String × String} (h1 : keyLE a b) (h2 : keyLE b c) :
    keyLE a c := by
  unfold keyLE at h1 h2 ⊢
  rcases h1 with h1 | ⟨he1, hl1⟩
  · rcases h2 with h2 | ⟨he2, _⟩
    · exact Or.inl (pyStrLt_trans h1 h2)
    · exact Or.inl (he2 ▸ h1)
  · rcases h2 with h2 | ⟨he2, hl2⟩
    · exact Or.inl (he1 ▸ h2)
    · exact Or.inr ⟨he1.trans he2, strLE_trans (a := a.2) (b := b.2) (c := c.2) hl1 hl2⟩

lemma keyLE_antisymm {a b : String × String} (h1 : keyLE a b) (h2 : keyLE b a) :
    a = b := by
  unfold keyLE at h1 h2
  rcases h1 with h1 | ⟨he1, hl1⟩
  · rcases h2 with h2 | ⟨he2, _⟩
    · rw [pyStrLt_asymm h1] at h2
      cases h2
    · rw [he2] at h1
      rw [pyStrLt_irrefl a.1] at h1
      cases h1
  · rcases h2 with h2 | ⟨he2, hl2⟩
    · rw [he1] at h2
      rw [pyStrLt_irrefl b.1] at h2
      cases h2
    · have hsnd : a.2 = b.2 := strLE_antisymm (a := a.2) (b := b.2) hl1 hl2
      exact Prod.ext he1 hsnd

instance : IsTotal (String × String × String) tripleLE :=
  ⟨fun a b => keyLE_total (a.1, a.2.1) (b.1, b.2.1)⟩

instance : IsTrans (String × String × String) tripleLE :=
  ⟨fun _ _ _ h1 h2 => keyLE_trans h1 h2⟩

/-- Two sorted lists that are permutations of each other are equal, given
antisymmetry of the order on the elements actually present. -/
lemma sorted_perm_eq {α : Type} {r : α → α → Prop} {P : α → Prop}
    (hanti : ∀ a b, P a → P b → r a b → r b a → a = b) :
    ∀ (l₁ l₂ : List α), (∀ x ∈ l₁, P x) → (∀ x ∈ l₂, P x) →
      l₁.Perm l₂ → l₁.Sorted r → l₂.Sorted r → l₁ = l₂ := by
  intro l₁
  induction l₁ with
  | nil =>
    intro l₂ _ _ hp _ _
    exact hp.nil_eq
  | cons a t ih =>
    intro l₂ hP1 hP2 hp hs1 hs2
    cases l₂ with
    | nil => exact absurd hp.eq_nil (List.cons_ne_nil a t)
    | cons b t₂ =>
      by_cases hab : a = b
      · subst hab
        have hp' := hp.cons_inv
        have ht := ih t₂ (fun x hx => hP1 x (List.mem_cons_of_mem _ hx))
          (fun x hx => hP2 x (List.mem_cons_of_mem _ hx)) hp' hs1.of_cons hs2.of_cons
        rw [ht]
      · have hbmem : b ∈ a :: t := hp.symm.subset (List.mem_cons_self ..)
        have hbt : b ∈ t := by
          rcases List.mem_cons.mp hbmem with he | hm
          · exact absurd he.symm hab
          · exact hm
        have hamem : a ∈ b :: t₂ := hp.subset (List.mem_cons_self ..)
        have hat : a ∈ t₂ := by
          rcases List.mem_cons.mp hamem with he | hm
          · exact absurd he hab
          · exact hm
        have hrab : r a b := List.rel_of_sorted_cons hs1 b hbt
        have hrba : r b a := List.rel_of_sorted_cons hs2 a hat
        exact absurd
          (hanti a b (hP1 a (List.mem_cons_self ..)) (hP2 b (List.mem_cons_self ..)) hrab hrba)
          hab

/-! ### Structure of `render_config_ini` -/

lemma renderTriple_code (v : String) (m : List (String × String)) (c : String) :
    (renderTriple v m c).2.1 = c := rfl

lemma sortedTriples_perm (v : String) (m : List (String × String)) (l : List String) :
    (sortedTriples v m l).Perm (renderedTriples v m l) :=
  List.perm_insertionSort tripleLE (renderedTriples v m l)

lemma sortedTriples_sorted (v : String) (m : List (String × String)) (l : List String) :
    (sortedTriples v m l).Sorted tripleLE :=
  List.sorted_insertionSort tripleLE (renderedTriples v m l)

lemma mem_sortedTriples (v : String) (m : List (String × String)) (l : List String)
    (t : String × String × String) (ht : t ∈ sortedTriples v m l) :
    t = renderTriple v m t.2.1 := by
  have hmem : t ∈ renderedTriples v m l := (sortedTriples_perm v m l).subset ht
  obtain ⟨c, _, he⟩ := List.mem_map.mp hmem
  rw [← he, renderTriple_code]

lemma renderedTriples_codes (v : String) (m : List (String × String)) (l : List String) :
    (renderedTriples v m l).map (fun t => t.2.1) = l := by
  unfold renderedTriples
  rw [List.map_map]
  exact List.map_id l

lemma render_ordered_perm (v : String) (m : List (String × String)) (l : List String) :
    ((sortedTriples v m l).map (fun t => t.2.1)).Perm l := by
  have h := (sortedTriples_perm v m l).map (fun t => t.2.1)
  rwa [renderedTriples_codes v m l] at h

lemma render_config_ini_codes (v : String) (l : List String)
    (m : List (String × String)) :
    (render_config_ini v l m).2 = (sortedTriples v m l).map (fun t => t.2.1) := by
  unfold render_config_ini
  simp only []
  split <;> rfl

/-- The tail literal of every rendered block. -/
lemma entryTemplate_tail (lang_long version lang_short : String) :
    ∃ s : List Char,
      (ENTRY_TEMPLATE lang_long version lang_short).data = s ++ ("DBI.nro\n").data := by
  unfold ENTRY_TEMPLATE
  rw [String.data_append]
  have hmv : ("mv /switch/DBI/DBI_new.nro /switch/DBI/DBI.nro\n").data
      = ("mv /switch/DBI/DBI_new.nro /switch/DBI/").data ++ ("DBI.nro\n").data := by decide
  rw [hmv, ← List.append_assoc]
  exact ⟨_, rfl⟩

/-- A rendered (right-stripped) block always ends in the letter o of
`DBI.nro`. -/
lemma block_getLast (lang_long version lang_short : String) :
    (pyRstrip (ENTRY_TEMPLATE lang_long version lang_short)).data.getLast? = some 'o' := by
  obtain ⟨s, hs⟩ := entryTemplate_tail lang_long version lang_short
  show ((ENTRY_TEMPLATE lang_long version lang_short).data.reverse.dropWhile
    isPySpace).reverse.getLast? = some 'o'
  rw [hs, List.reverse_append]
  have hrev : ("DBI.nro\n").data.reverse
      = '\n' :: 'o' :: 'r' :: 'n' :: '.' :: 'I' :: 'B' :: 'D' :: [] := by decide
  rw [hrev]
  rw [List.cons_append, List.dropWhile_cons]
  have h1 : isPySpace '\n' = true := by decide
  rw [h1]
  simp only [if_true]
  rw [List.cons_append, List.dropWhile_cons]
  have h2 : isPySpace 'o' = false := by decide
  rw [h2]
  simp only [Bool.false_eq_true, if_false]
  rw [List.getLast?_reverse]
  rfl

lemma header_getLast : (pyRstrip FILE_HEADER).data.getLast? = some 'S' := by decide

/-- The joined content never ends in a newline: its last character is the
last character of the last block (or of the header when there is no block),
which is never a newline. -/
lemma joinSep_getLast_ne_nl :
    ∀ (l : List String), l ≠ [] →
      (∀ x ∈ l, ∃ c, x.data.getLast? = some c ∧ c ≠ '\n') →
      ∃ c, (joinSep "\n\n" l).data.getLast? = some c ∧ c ≠ '\n' := by
  intro l
  induction l with
  | nil => intro h _; exact absurd rfl h
  | cons x rest ih =>
    intro _ hall
    cases rest with
    | nil =>
      show ∃ c, (joinSep "\n\n" [x]).data.getLast? = some c ∧ c ≠ '\n'
      simpa [joinSep] using hall x (List.mem_cons_self ..)
    | cons y rest2 =>
      obtain ⟨c, hc, hcn⟩ := ih (List.cons_ne_nil y rest2)
        (fun z hz => hall z (List.mem_cons_of_mem x hz))
      refine ⟨c, ?_, hcn⟩
      show ((x ++ "\n\n" ++ joinSep "\n\n" (y :: rest2)).data).getLast? = some c
      rw [String.data_append]
      rw [List.getLast?_append_of_ne_nil]
      · exact hc
      · intro hnil
        rw [hnil] at hc
        cases hc

lemma pyEndsWith_nl_iff (s : String) :
    pyEndsWith s "\n" = true ↔ s.data.getLast? = some '\n' := by
  unfold pyEndsWith
  have hrev : ("\n" : String).data.reverse = ['\n'] := by decide
  rw [hrev, ← List.head?_reverse]
  cases h : s.data.reverse with
  | nil => simp [List.isPrefixOf]
  | cons b t =>
    simp only [List.isPrefixOf, List.head?]
    constructor
    · intro hb
      have hbe : '\n' = b := by
        revert hb
        simp [List.isPrefixOf]
      rw [hbe]
    · intro hb
      have hbe : b = '\n' := Option.some.inj hb
      simp [List.isPrefixOf, hbe]

/-- The emitted blocks, expressed through the emitted code order. -/
lemma render_blocks_eq (v : String) (l : List String) (m : List (String × String)) :
    (sortedTriples v m l).map (fun t => t.2.2)
      = ((sortedTriples v m l).map (fun t => t.2.1)).map
          (fun c => pyRstrip (ENTRY_TEMPLATE (dictGet m c c) v c)) := by
  rw [List.map_map]
  apply List.map_congr_left
  intro t ht
  obtain ⟨c, _, he⟩ := List.mem_map.mp ((sortedTriples_perm v m l).subset ht)
  subst he
  rfl

/-- The emitted key list, expressed through the emitted code order. -/
lemma render_keys_eq (v : String) (l : List String) (m : List (String × String)) :
    ((sortedTriples v m l).map (fun t => t.2.1)).map
        (fun c => (pyCasefold (dictGet m c c), c))
      = (sortedTriples v m l).map (fun t => (t.1, t.2.1)) := by
  rw [List.map_map]
  apply List.map_congr_left
  intro t ht
  obtain ⟨c, _, he⟩ := List.mem_map.mp ((sortedTriples_perm v m l).subset ht)
  subst he
  rfl

lemma render_keys_sorted (v : String) (l : List String) (m : List (String × String)) :
    List.Sorted keyLE
      (((sortedTriples v m l).map (fun t => t.2.1)).map
        (fun c => (pyCasefold (dictGet m c c), c))) := by
  rw [render_keys_eq]
  refine List.Pairwise.map (fun t => (t.1, t.2.1)) ?_ (sortedTriples_sorted v m l)
  intro a b h
  exact h

/-- The joined content of `render_config_ini` does not end in a newline, so
the final `content += "\n"` always fires and adds the single trailing
newline. -/
lemma render_content_nonl (v : String) (l : List String) (m : List (String × String)) :
    pyEndsWith
      (joinSep "\n\n" (pyRstrip FILE_HEADER :: (sortedTriples v m l).map (fun t => t.2.2)))
      "\n" = false := by
  obtain ⟨c, hc, hcn⟩ :=
    joinSep_getLast_ne_nl (pyRstrip FILE_HEADER :: (sortedTriples v m l).map (fun t => t.2.2))
      (List.cons_ne_nil _ _)
      (by
        intro x hx
        rcases List.mem_cons.mp hx with he | hm
        · exact ⟨'S', he ▸ header_getLast, by decide⟩
        · obtain ⟨t, ht, he⟩ := List.mem_map.mp hm
          have hmem := mem_sortedTriples v m l t ht
          refine ⟨'o', ?_, by decide⟩
          rw [← he, hmem]
          exact block_getLast _ _ _)
  rcases bool_cases
    (pyEndsWith
      (joinSep "\n\n" (pyRstrip FILE_HEADER :: (sortedTriples v m l).map (fun t => t.2.2)))
      "\n") with hf | ht
  · exact hf
  · exfalso
    have hl := (pyEndsWith_nl_iff _).mp ht
    rw [hc] at hl
    exact hcn (Option.some.inj hl)

lemma render_config_ini_content (v : String) (l : List String)
    (m : List (String × String)) :
    (render_config_ini v l m).1
      = joinSep "\n\n"
          (pyRstrip FILE_HEADER :: (sortedTriples v m l).map (fun t => t.2.2)) ++ "\n" := by
  unfold render_config_ini
  simp only []
  rw [if_pos (render_content_nonl v l m)]

/-- A non-qualifying asset anywhere in the list leaves the whole loop
unchanged. -/
lemma parseAssetsLoop_skip_middle (a : Asset) (l2 : List Asset)
    (hq : qualifies a.name = false) :
    ∀ (l1 : List Asset) (ver : Option String) (acc : List String),
      parseAssetsLoop (l1 ++ a :: l2) ver acc = parseAssetsLoop (l1 ++ l2) ver acc := by
  intro l1
  induction l1 with
  | nil =>
    intro ver acc
    exact parseAssetsLoop_cons_skip a l2 ver acc hq
  | cons x rest ih =>
    intro ver acc
    simp only [List.cons_append]
    by_cases hx : qualifies x.name = true
    · cases ver with
      | none =>
        rw [parseAssetsLoop_cons_qual_none x (rest ++ a :: l2) acc hx,
            parseAssetsLoop_cons_qual_none x (rest ++ l2) acc hx]
        exact ih _ _
      | some v =>
        by_cases hv : v = assetVersion x.name
        · rw [parseAssetsLoop_cons_qual_some_eq x (rest ++ a :: l2) v acc hx hv,
              parseAssetsLoop_cons_qual_some_eq x (rest ++ l2) v acc hx hv]
          exact ih _ _
        · rw [parseAssetsLoop_cons_qual_some_ne x (rest ++ a :: l2) v acc hx hv,
              parseAssetsLoop_cons_qual_some_ne x (rest ++ l2) v acc hx hv]
    · have hx' : qualifies x.name = false := by
        revert hx; cases qualifies x.name <;> simp
      rw [parseAssetsLoop_cons_skip x (rest ++ a :: l2) ver acc hx',
          parseAssetsLoop_cons_skip x (rest ++ l2) ver acc hx']
      exact ih _ _

/-! ### Claim theorems -/

/-- C1, counterexample: on the spec's own end-to-end example
`["DBI.1.2.3.en.nro", "DBI.1.2.3.fr.nro"]` the parser does NOT return
version `"1.2.3"`: each name splits into 6 dot-segments, not 4, so both
assets are silently skipped and `parse_assets` fails with the no-assets
error. -/
theorem c1_dotted_version_counterexample :
    parse_assets [Asset.mk "DBI.1.2.3.en.nro", Asset.mk "DBI.1.2.3.fr.nro"]
      = .error noAssetsMsg ∧
    parse_assets [Asset.mk "DBI.1.2.3.en.nro", Asset.mk "DBI.1.2.3.fr.nro"]
      ≠ .ok ("1.2.3", ["en", "fr"]) := by
  constructor
  · decide
  · decide

set_option maxRecDepth 400000 in
/-- C1, amended: for a dot-free version segment the pipeline behaves exactly
as the example intends: `["DBI.123.en.nro", "DBI.123.fr.nro"]` with map
`{"en": "English", "fr": "Français"}` parses to version `"123"` with codes
`["en", "fr"]`, and rendering yields the two-block config with the English
block first and the download URLs ending in `DBI.123.en.nro` and
`DBI.123.fr.nro`, each block separated by a blank line and a single
trailing newline. -/
theorem c1_end_to_end_amended :
    parse_assets [Asset.mk "DBI.123.en.nro", Asset.mk "DBI.123.fr.nro"]
      = .ok ("123", ["en", "fr"]) ∧
    render_config_ini "123" ["en", "fr"] [("en", "English"), ("fr", "Français")]
      = (";LANGUAGES\n\n[English]\ncatch_errors\ndownload https://github.com/rashevskyv/DBIPatcher/releases/latest/download/DBI.123.en.nro /switch/DBI/DBI_new.nro\nmv /switch/DBI/DBI_new.nro /switch/DBI/DBI.nro\n\n[Français]\ncatch_errors\ndownload https://github.com/rashevskyv/DBIPatcher/releases/latest/download/DBI.123.fr.nro /switch/DBI/DBI_new.nro\nmv /switch/DBI/DBI_new.nro /switch/DBI/DBI.nro\n",
         ["en", "fr"]) := by
  constructor
  · decide
  · decide

/-- C2, code bug: a `requests.Timeout` (or connection error) raised by
`requests.get` is not a `requests.HTTPError`, so the `except` clause of
`main` does not catch it: the exception propagates out of `main` uncaught,
with no stderr report from the program and no `return 1`, contradicting the
claim that every fetch failure is reported and turned into exit code 1. -/
theorem c2_timeout_uncaught :
    main [("en", "English")] (LoadedState.mk (some 1)) HttpOutcome.timeout false
        "2026-01-01T00:00:00+00:00"
      = (.error .timeoutError, []) ∧
    (main [("en", "English")] (LoadedState.mk (some 1)) HttpOutcome.timeout false
        "2026-01-01T00:00:00+00:00").1 ≠ .ok 1 := by
  constructor
  · rfl
  · decide

/-- C3: whenever the asset list contains two qualifying assets whose version
segments differ, `parse_assets` fails with the inconsistency error whose
message names the baseline version (the version of the first qualifying
asset), the differing version and the offending filename; no value is
returned. -/
theorem c3_inconsistent_versions (assets : List Asset)
    (h : ∃ a ∈ assets, ∃ b ∈ assets, qualifies a.name = true ∧ qualifies b.name = true ∧
      assetVersion a.name ≠ assetVersion b.name) :
    ∃ a0 w nm, firstQualifying assets = some a0 ∧
      parse_assets assets = .error (inconsistentMsg (assetVersion a0.name) w nm) ∧
      w ≠ assetVersion a0.name ∧
      ∃ c ∈ assets, qualifies c.name = true ∧ assetVersion c.name = w ∧ c.name = nm := by
  obtain ⟨a, ha, b, hb, haq, hbq, hab⟩ := h
  have hex : ∃ a0, firstQualifying assets = some a0 := by
    cases hfq : firstQualifying assets with
    | some a0 => exact ⟨a0, rfl⟩
    | none =>
      exfalso
      have hnone := List.find?_eq_none.mp hfq a ha
      exact hnone haq
  obtain ⟨a0, h0⟩ := hex
  obtain ⟨w, nm, heq, hwv, hc⟩ :=
    parseAssetsLoop_none_inconsistent assets [] a0 h0 ⟨a, ha, b, hb, haq, hbq, hab⟩
  refine ⟨a0, w, nm, h0, ?_, hwv, hc⟩
  unfold parse_assets
  rw [heq]

/-- C3, witness: `["DBI.123.en.nro", "DBI.456.fr.nro"]` triggers the
inconsistency error with baseline `123`, differing version `456` and
offending file `DBI.456.fr.nro`. -/
theorem c3_inconsistent_versions_witness :
    ∃ a0 w nm,
      firstQualifying [Asset.mk "DBI.123.en.nro", Asset.mk "DBI.456.fr.nro"] = some a0 ∧
      parse_assets [Asset.mk "DBI.123.en.nro", Asset.mk "DBI.456.fr.nro"]
        = .error (inconsistentMsg (assetVersion a0.name) w nm) ∧
      w ≠ assetVersion a0.name ∧
      ∃ c ∈ [Asset.mk "DBI.123.en.nro", Asset.mk "DBI.456.fr.nro"],
        qualifies c.name = true ∧ assetVersion c.name = w ∧ c.name = nm :=
  c3_inconsistent_versions [Asset.mk "DBI.123.en.nro", Asset.mk "DBI.456.fr.nro"]
    ⟨Asset.mk "DBI.123.en.nro", by decide, Asset.mk "DBI.456.fr.nro", by decide,
      by decide, by decide, by decide⟩

/-- C4: when no asset qualifies (so no version baseline is established),
`parse_assets` fails with the no-assets error rather than returning a
value. -/
theorem c4_no_qualifying_assets (assets : List Asset)
    (h : ∀ a ∈ assets, qualifies a.name = false) :
    parse_assets assets = .error noAssetsMsg := by
  unfold parse_assets
  rw [parseAssetsLoop_no_qual assets none [] h]

/-- C4, witness: a list with a non-matching filename and a malformed DBI
filename has no qualifying asset, and parsing fails with the no-assets
error. -/
theorem c4_no_qualifying_assets_witness :
    parse_assets [Asset.mk "README.md", Asset.mk "DBI.extra.part.123.en.nro"]
      = .error noAssetsMsg :=
  c4_no_qualifying_assets [Asset.mk "README.md", Asset.mk "DBI.extra.part.123.en.nro"]
    (by decide)

/-- C5: an asset whose lowercased name has the `dbi.` prefix and `.nro`
suffix but does not split into exactly 4 dot-segments is silently skipped:
inserting it anywhere in the asset list leaves the result of `parse_assets`
unchanged, so it contributes no version and no language code and never
causes an error by itself. -/
theorem c5_malformed_name_skipped (l1 l2 : List Asset) (a : Asset)
    (h1 : hasDbiShape a.name = true) (h2 : (assetParts a.name).length ≠ 4) :
    parse_assets (l1 ++ a :: l2) = parse_assets (l1 ++ l2) := by
  have hq : qualifies a.name = false := by
    unfold qualifies
    rw [h1]
    simp [h2]
  unfold parse_assets
  rw [parseAssetsLoop_skip_middle a l2 hq l1 none []]

/-- C5, witness: `DBI.extra.part.123.en.nro` (6 dot-segments) has the right
prefix and suffix but is skipped; adding it after a well-formed asset does
not change the parse result. -/
theorem c5_malformed_name_skipped_witness :
    hasDbiShape "DBI.extra.part.123.en.nro" = true ∧
    (assetParts "DBI.extra.part.123.en.nro").length ≠ 4 ∧
    parse_assets [Asset.mk "DBI.123.en.nro", Asset.mk "DBI.extra.part.123.en.nro"]
      = parse_assets [Asset.mk "DBI.123.en.nro"] :=
  ⟨by decide, by decide,
    c5_malformed_name_skipped [Asset.mk "DBI.123.en.nro"] []
      (Asset.mk "DBI.extra.part.123.en.nro") (by decide) (by decide)⟩

/-- C6: for every version, code list and language map, `render_config_ini`
emits the fixed header line followed by one template block per code (the
emitted code order is a permutation of the input), blocks sorted ascending
by the pair (case-folded display name, language code) with the display name
falling back to the code when absent from the map, blocks joined by a blank
line, and the output is the joined content plus exactly one trailing
newline (the joined content itself never ends in a newline). -/
theorem c6_render_structure (v : String) (codes : List String)
    (m : List (String × String)) :
    (render_config_ini v codes m).2.Perm codes ∧
    (render_config_ini v codes m).1
      = joinSep "\n\n"
          (pyRstrip FILE_HEADER ::
            (render_config_ini v codes m).2.map
              (fun c => pyRstrip (ENTRY_TEMPLATE (dictGet m c c) v c))) ++ "\n" ∧
    List.Sorted keyLE
      ((render_config_ini v codes m).2.map (fun c => (pyCasefold (dictGet m c c), c))) ∧
    pyEndsWith
      (joinSep "\n\n"
        (pyRstrip FILE_HEADER ::
          (render_config_ini v codes m).2.map
            (fun c => pyRstrip (ENTRY_TEMPLATE (dictGet m c c) v c)))) "\n" = false := by
  refine ⟨?_, ?_, ?_, ?_⟩
  · rw [render_config_ini_codes]
    exact render_ordered_perm v m codes
  · rw [render_config_ini_content, render_config_ini_codes, ← render_blocks_eq]
  · rw [render_config_ini_codes]
    exact render_keys_sorted v codes m
  · rw [render_config_ini_codes, ← render_blocks_eq]
    exact render_content_nonl v codes m

/-- C7: rendering is invariant under permutation of the input code list —
both the output text and the emitted code order are identical, because the
final order is derived solely from the (case-folded display name, code)
key and equal keys belong to identical triples. -/
theorem c7_render_perm_invariant (v : String) (m : List (String × String))
    (codes1 codes2 : List String) (h : codes1.Perm codes2) :
    render_config_ini v codes1 m = render_config_ini v codes2 m := by
  have hsort : sortedTriples v m codes1 = sortedTriples v m codes2 := by
    apply sorted_perm_eq (P := fun t => t = renderTriple v m t.2.1)
      (r := tripleLE)
    · intro a b hPa hPb hab hba
      have hk := keyLE_antisymm hab hba
      have h21 : a.2.1 = b.2.1 := congrArg Prod.snd hk
      rw [hPa, hPb, h21]
    · exact fun x hx => mem_sortedTriples v m codes1 x hx
    · exact fun x hx => mem_sortedTriples v m codes2 x hx
    · exact (sortedTriples_perm v m codes1).trans
        (((h.map (renderTriple v m)).trans (sortedTriples_perm v m codes2).symm))
    · exact sortedTriples_sorted v m codes1
    · exact sortedTriples_sorted v m codes2
  unfold render_config_ini
  rw [hsort]

/-- C7, witness: swapping the two input codes leaves the rendered output
unchanged. -/
theorem c7_render_perm_invariant_witness :
    render_config_ini "123" ["fr", "en"] [("en", "English"), ("fr", "Français")]
      = render_config_ini "123" ["en", "fr"] [("en", "English"), ("fr", "Français")] :=
  c7_render_perm_invariant "123" [("en", "English"), ("fr", "Français")]
    ["fr", "en"] ["en", "fr"] (by decide)

/-- C8: whenever `parse_assets` succeeds, the returned code list is sorted
ascending in the code-point lexicographic order and is a permutation of the
codes of all qualifying assets — duplicates arising from duplicate
qualifying assets are preserved as separate entries, not deduplicated. -/
theorem c8_parse_sorted_and_duplicates (assets : List Asset) (v : String)
    (langs : List String) (h : parse_assets assets = .ok (v, langs)) :
    langs.Sorted strLE ∧ langs.Perm (qualifyingCodes assets) := by
  unfold parse_assets at h
  cases hl : parseAssetsLoop assets none [] with
  | error e =>
    rw [hl] at h
    cases h
  | ok p =>
    obtain ⟨ver, ls⟩ := p
    rw [hl] at h
    cases ver with
    | none => cases h
    | some v0 =>
      have h' : (if ls = [] then (Except.error noAssetsMsg : Except String (String × List String))
          else .ok (v0, pySortStrings ls)) = .ok (v, langs) := h
      by_cases hls : ls = []
      · rw [if_pos hls] at h'
        cases h'
      · rw [if_neg hls] at h'
        have hpair := Except.ok.inj h'
        have hlangs : pySortStrings ls = langs := congrArg Prod.snd hpair
        have hqc : ls = qualifyingCodes assets := by
          simpa using parseAssetsLoop_ok_langs assets none [] (some v0) ls hl
        constructor
        · rw [← hlangs]
          exact List.sorted_insertionSort strLE ls
        · rw [← hlangs, ← hqc]
          exact List.perm_insertionSort strLE ls

/-- C8, witness: two identical qualifying assets yield the duplicated,
sorted code list `["en", "en"]`, a permutation of the qualifying codes. -/
theorem c8_parse_sorted_and_duplicates_witness :
    (["en", "en"] : List String).Sorted strLE ∧
    (["en", "en"] : List String).Perm
      (qualifyingCodes [Asset.mk "DBI.123.en.nro", Asset.mk "DBI.123.en.nro"]) :=
  c8_parse_sorted_and_duplicates
    [Asset.mk "DBI.123.en.nro", Asset.mk "DBI.123.en.nro"] "123" ["en", "en"] (by decide)

/-- C9: when the stored `last_release_id` equals the fetched release id and
`--force` is not set, `main` prints the already-processed notice and returns
exit code 0 with no filesystem effect at all: no directory creation or
clearing, no config write, no state write. -/
theorem c9_already_processed_no_writes (lm : List (String × String))
    (st : LoadedState) (status : Nat) (body : ReleaseJson) (rid : Int) (now : String)
    (hlm : lm ≠ []) (hst : failStatus status = false) (hid : body.id = some rid)
    (hlast : st.last_release_id = some rid) :
    main lm st (.response status body) false now
      = (.ok 0, [.stdoutLine alreadyProcessedMsg]) ∧
    ∀ e ∈ (main lm st (.response status body) false now).2, e.isFsWrite = false := by
  have hfetch : fetch_latest_release (.response status body) = .ok body := by
    simp [fetch_latest_release, hst]
  have hmain : main lm st (.response status body) false now
      = (.ok 0, [.stdoutLine alreadyProcessedMsg]) := by
    simp [main, hfetch, hid, hlast, hlm]
  refine ⟨hmain, ?_⟩
  rw [hmain]
  intro e he
  have he' : e = Effect.stdoutLine alreadyProcessedMsg := by simpa using he
  rw [he']
  rfl

/-- C9, witness: with stored id 7, fetched id 7 (HTTP 200) and no force
flag, `main` exits 0 with only the notice printed and no filesystem
write. -/
theorem c9_already_processed_no_writes_witness :
    main [("en", "English")] (LoadedState.mk (some 7))
        (.response 200 (ReleaseJson.mk (some 7) (some "v7") [])) false "t"
      = (.ok 0, [.stdoutLine alreadyProcessedMsg]) ∧
    ∀ e ∈ (main [("en", "English")] (LoadedState.mk (some 7))
        (.response 200 (ReleaseJson.mk (some 7) (some "v7") [])) false "t").2,
      e.isFsWrite = false :=
  c9_already_processed_no_writes [("en", "English")] (LoadedState.mk (some 7)) 200
    (ReleaseJson.mk (some 7) (some "v7") []) 7 "t"
    (by decide) (by decide) (by decide) (by decide)

/-- C10: the emitted code order returned by `render_config_ini` is a
permutation of the input code list — every input code occurs in the output
exactly as many times as in the input — and `update_state` persists exactly
that emitted list in its `languages` field. -/
theorem c10_render_codes_perm_state (v : String) (codes : List String)
    (m : List (String × String)) (rid : Int) (tag now : String) :
    (render_config_ini v codes m).2.Perm codes ∧
    (∀ c, (render_config_ini v codes m).2.count c = codes.count c) ∧
    (update_state rid tag v (render_config_ini v codes m).2 now).languages
      = (render_config_ini v codes m).2 := by
  have hperm : (render_config_ini v codes m).2.Perm codes := by
    rw [render_config_ini_codes]
    exact render_ordered_perm v m codes
  exact ⟨hperm, fun c => hperm.count_eq c, rfl⟩

end DBIWatcher
